import Mathlib

/-!
Verification development for the smart-cv-tailor-analyzer repository.

The Python sources (src/cv_parser.py, src/cv_exporter.py) are shallowly
embedded below.  Text is modelled as `String` / `List Char`; Python sets
are modelled as duplicate-free lists (with an explicitly pinned iteration
order, since Python set iteration order is arbitrary) or as `Finset`;
floats are modelled as exact rationals (`ℚ`); fallible I/O is modelled
with `Option` / `Except`.  Each embedded definition carries a comment
pointing at the source construct it models.
-/

namespace CVTailor

/-! ### Character and string utilities

These model the Python primitives used by the sources: `str.lower`,
`str.upper`, `str.strip`, `str.split`, the substring operator and the
word-boundary semantics of a Python regular expression.  All operate on
`List Char` so they evaluate inside the kernel.  ASCII behaviour is
modelled exactly; the sources only feed ASCII vocabulary and labels to
these helpers.
-/

def lowerChars (l : List Char) : List Char := l.map Char.toLower

def upperChars (l : List Char) : List Char := l.map Char.toUpper

/-- Python `str.strip()`: remove leading and trailing whitespace. -/
def trimChars (l : List Char) : List Char :=
  ((l.dropWhile Char.isWhitespace).reverse.dropWhile Char.isWhitespace).reverse

/-- Bool test that `needle` is a leading run of `hay` (character-exact). -/
def startsWithChars : List Char → List Char → Bool
  | [], _ => true
  | _ :: _, [] => false
  | a :: as, b :: bs => a == b && startsWithChars as bs

/-- Python substring operator: `needle in hay`. -/
def hasSub (needle : List Char) : List Char → Bool
  | [] => startsWithChars needle []
  | c :: t => startsWithChars needle (c :: t) || hasSub needle t

/-- Length of the leading run of characters satisfying `p`. -/
def leadCount (p : Char → Bool) : List Char → Nat
  | [] => 0
  | c :: t => if p c then leadCount p t + 1 else 0

/-- Python `str.split()` (split on whitespace runs, dropping empties). -/
def splitWSAux : List Char → List Char → List (List Char)
  | acc, [] => if acc.isEmpty then [] else [acc.reverse]
  | acc, c :: t =>
    if c.isWhitespace then
      if acc.isEmpty then splitWSAux [] t else acc.reverse :: splitWSAux [] t
    else splitWSAux (c :: acc) t

def splitWS (l : List Char) : List (List Char) := splitWSAux [] l

/-- Join char-list pieces with a separator (Python `sep.join(...)`). -/
def joinSep (sep : List Char) : List (List Char) → List Char
  | [] => []
  | [x] => x
  | x :: y :: t => x ++ sep ++ joinSep sep (y :: t)

/-! ### Word-bounded search (Python `re.search(r'\b' + re.escape(skill) + r'\b', text)`)

`re.escape` makes the skill a literal, so the pattern is the literal
skill delimited by two word boundaries.  A word boundary holds at a
position iff exactly one of the two adjacent characters (treating the
outside of the string as a non-character) is a word character
(`[A-Za-z0-9_]` for the ASCII inputs used here).
-/

def isWordChar (c : Char) : Bool := c.isAlphanum || c == '_'

def optWordChar : Option Char → Bool
  | none => false
  | some c => isWordChar c

/-- Word boundary between the character left of a position and the one right of it. -/
def boundary (a b : Option Char) : Bool := optWordChar a != optWordChar b

/-- The pattern `\b<p>\b` matches at the head of `t`, where `prev` is the
character immediately before `t` in the full text (none at the start). -/
def matchHere (p : List Char) (prev : Option Char) (t : List Char) : Bool :=
  boundary prev p.head? && startsWithChars p t &&
    boundary p.getLast? ((t.drop p.length).head?)

def searchBoundedAux (p : List Char) : Option Char → List Char → Bool
  | prev, [] => matchHere p prev []
  | prev, c :: t => matchHere p prev (c :: t) || searchBoundedAux p (some c) t

/-- Models Python `re.search(r'\b' + re.escape(p) + r'\b', text) is not None`. -/
def searchBounded (p text : List Char) : Bool := searchBoundedAux p none text

/-! ### KeywordExtractor (src/cv_parser.py, class KeywordExtractor) -/

/-- The fixed skill vocabulary `KeywordExtractor.technical_skills`
(a Python set literal; modelled as the list in source order). -/
def technical_skills : List String :=
  ["python", "java", "javascript", "typescript", "c++", "c#", "ruby", "go",
   "php", "swift", "kotlin", "scala", "rust", "r", "matlab",
   "html", "css", "react", "angular", "vue", "node.js", "nodejs",
   "django", "flask", "fastapi", "express", "spring boot", "asp.net",
   "next.js", "svelte", "jquery", "bootstrap", "tailwind",
   "sql", "mysql", "postgresql", "mongodb", "redis", "oracle", "nosql",
   "dynamodb", "cassandra", "elasticsearch", "sqlite",
   "aws", "azure", "gcp", "google cloud", "docker", "kubernetes", "k8s",
   "terraform", "ansible", "jenkins", "gitlab", "github actions", "ci/cd",
   "machine learning", "deep learning", "data science", "artificial intelligence",
   "tensorflow", "pytorch", "keras", "scikit-learn", "pandas", "numpy",
   "matplotlib", "nlp", "computer vision", "opencv",
   "spark", "hadoop", "kafka", "airflow", "databricks",
   "git", "jira", "agile", "scrum", "devops",
   "rest api", "graphql", "microservices", "linux", "bash",
   "api", "etl", "tableau", "power bi", "excel"]

/-- `KeywordExtractor.extract_skills_from_text`: lowercase the text, keep
every vocabulary term that matches word-bounded, then add the three
abbreviation expansions (`ml`, `ai`, `js`).  The Python function returns a
set; here the result is the corresponding duplicate-free list (order
pinned to vocabulary order, which is sound for every property proved
below since none depends on the arbitrary Python set order). -/
def extract_skills_from_text (text : String) : List String :=
  let text_lower := lowerChars text.data
  let found := technical_skills.filter fun s => searchBounded s.data text_lower
  let withAbbrev :=
    found
      ++ (if searchBounded "ml".data text_lower then ["machine learning"] else [])
      ++ (if searchBounded "ai".data text_lower then ["artificial intelligence"] else [])
      ++ (if searchBounded "js".data text_lower then ["javascript"] else [])
  withAbbrev.dedup

/-! ### JobDescriptionAnalyzer (src/cv_parser.py, class JobDescriptionAnalyzer)

`extract_skills_from_job` searches the lowercased posting for a
"required" section with
`required(?:\s+(?:skills|qualifications))?[:\s]+(.*?)(?=preferred|nice|bonus|responsibilities|$)`
falling back to `must\s+have[:\s]+(.*?)(?=preferred|nice|$)` (both with
DOTALL, no MULTILINE).  The helpers below implement exactly the
backtracking behaviour of those two patterns: the leftmost start wins,
the optional `\s+(skills|qualifications)` group is greedy and is given up
when no `[:\s]+` separator follows it, and the lazy captured group ends
at the first stop word or at `$` (end of text, or just before a final
newline). -/

def stopsRequired : List (List Char) :=
  ["preferred".data, "nice".data, "bonus".data, "responsibilities".data]

def stopsMust : List (List Char) := ["preferred".data, "nice".data]

/-- Lazy capture `(.*?)(?=stop1|...|$)`: everything up to the first
position where a stop word starts or where `$` matches. -/
def captureUpTo (stops : List (List Char)) : List Char → List Char
  | [] => []
  | c :: t =>
    if (stops.any fun sw => startsWithChars sw (c :: t)) || (c == '\n' && t.isEmpty)
    then []
    else c :: captureUpTo stops t

/-- The separator `[:\s]+` (one or more), returning the rest of the text. -/
def sepThen (r : List Char) : Option (List Char) :=
  let k := leadCount (fun c => c == ':' || c.isWhitespace) r
  if k = 0 then none else some (r.drop k)

/-- After the literal `required`: try the greedy optional group
`(?:\s+(?:skills|qualifications))?` followed by `[:\s]+`; if that fails,
give the group up and require `[:\s]+` directly. -/
def afterRequiredHead (rest : List Char) : Option (List Char) :=
  let wsn := leadCount Char.isWhitespace rest
  let viaWord : Option (List Char) :=
    if wsn = 0 then none
    else
      let r1 := rest.drop wsn
      if startsWithChars "skills".data r1 then sepThen (r1.drop 6)
      else if startsWithChars "qualifications".data r1 then sepThen (r1.drop 14)
      else none
  match viaWord with
  | some v => some v
  | none => sepThen rest

/-- `re.search` of the first required-section pattern on the lowercased
text: leftmost position where `required` plus a separator matches;
returns the captured group. -/
def searchPat1 : List Char → Option (List Char)
  | [] => none
  | c :: t =>
    match
      (if startsWithChars "required".data (c :: t)
       then afterRequiredHead ((c :: t).drop 8) else none) with
    | some r => some (captureUpTo stopsRequired r)
    | none => searchPat1 t

/-- After the literal `must`: `\s+` then `have` then `[:\s]+`. -/
def afterMustHead (rest : List Char) : Option (List Char) :=
  let wsn := leadCount Char.isWhitespace rest
  if wsn = 0 then none
  else
    let r1 := rest.drop wsn
    if startsWithChars "have".data r1 then sepThen (r1.drop 4) else none

/-- `re.search` of the second pattern `must\s+have[:\s]+(...)`. -/
def searchPat2 : List Char → Option (List Char)
  | [] => none
  | c :: t =>
    match
      (if startsWithChars "must".data (c :: t)
       then afterMustHead ((c :: t).drop 4) else none) with
    | some r => some (captureUpTo stopsMust r)
    | none => searchPat2 t

/-- The `required_text` variable of `extract_skills_from_job`: the first
pattern that matches wins (even with an empty capture); no match leaves
the empty string. -/
def findRequiredText (text_lower : List Char) : List Char :=
  match searchPat1 text_lower with
  | some cap => cap
  | none =>
    match searchPat2 text_lower with
    | some cap => cap
    | none => []

/-- Models `int(len(required_skills) * 0.7)`.  The Python expression
multiplies by the binary double nearest 0.7 and truncates; at `n = 10`
(the only length at which a claim depends on the numeric value) the IEEE
product `10 * 0.7` rounds to exactly `7.0`, so truncation gives
`7 = 7 * 10 / 10`. -/
def splitPoint (n : Nat) : Nat := 7 * n / 10

/-! Lexicographic order on strings by character code, the order Python
`sorted` uses on strings. -/

def charsLe : List Char → List Char → Bool
  | [], _ => true
  | _ :: _, [] => false
  | a :: as, b :: bs => if a = b then charsLe as bs else decide (a < b)

def strLe (a b : String) : Prop := charsLe a.data b.data = true

instance : DecidableRel strLe := fun a b => by unfold strLe; infer_instance

lemma charsLe_total : ∀ x y : List Char, charsLe x y = true ∨ charsLe y x = true := by
  intro x
  induction x with
  | nil => intro y; left; rfl
  | cons a as ih =>
    intro y
    cases y with
    | nil => right; rfl
    | cons b bs =>
      by_cases hab : a = b
      · subst hab
        simpa [charsLe] using ih bs
      · have hba : ¬ b = a := fun e => hab e.symm
        rcases lt_trichotomy a b with h | h | h
        · left; simp [charsLe, hab, h]
        · exact absurd h hab
        · right
          simp [charsLe, hba, h]

lemma charsLe_trans :
    ∀ x y z : List Char, charsLe x y = true → charsLe y z = true →
      charsLe x z = true := by
  intro x
  induction x with
  | nil => intro y z _ _; rfl
  | cons a as ih =>
    intro y z hxy hyz
    cases y with
    | nil => simp [charsLe] at hxy
    | cons b bs =>
      cases z with
      | nil => simp [charsLe] at hyz
      | cons c cs =>
        by_cases hab : a = b <;> by_cases hbc : b = c
        · subst hab; subst hbc
          simp only [charsLe, if_pos rfl] at hxy hyz ⊢
          exact ih bs cs hxy hyz
        · subst hab
          simp only [charsLe, if_pos rfl] at hxy
          simpa [charsLe, hbc] using hyz
        · subst hbc
          simpa [charsLe, hab] using hxy
        · simp only [charsLe, if_neg hab] at hxy
          simp only [charsLe, if_neg hbc] at hyz
          have hac : a < c :=
            lt_trans (of_decide_eq_true hxy) (of_decide_eq_true hyz)
          have hnac : ¬ a = c := fun e => absurd (e ▸ hac) (lt_irrefl c)
          simp [charsLe, hnac, hac]

lemma charsLe_antisymm :
    ∀ x y : List Char, charsLe x y = true → charsLe y x = true → x = y := by
  intro x
  induction x with
  | nil =>
    intro y _ hyx
    cases y with
    | nil => rfl
    | cons b bs => simp [charsLe] at hyx
  | cons a as ih =>
    intro y hxy hyx
    cases y with
    | nil => simp [charsLe] at hxy
    | cons b bs =>
      by_cases hab : a = b
      · subst hab
        simp only [charsLe, if_pos rfl] at hxy hyx
        rw [ih bs hxy hyx]
      · have hba : ¬ b = a := fun e => hab e.symm
        simp only [charsLe, if_neg hab] at hxy
        simp only [charsLe, if_neg hba] at hyx
        exact absurd (lt_trans (of_decide_eq_true hxy) (of_decide_eq_true hyx))
          (lt_irrefl a)

instance : IsTotal String strLe :=
  ⟨fun a b => charsLe_total a.data b.data⟩

instance : IsTrans String strLe :=
  ⟨fun a b c => charsLe_trans a.data b.data c.data⟩

instance : IsAntisymm String strLe :=
  ⟨fun a b h h' => by
    cases a; cases b
    exact congrArg String.mk (charsLe_antisymm _ _ h h')⟩

instance : IsRefl String strLe :=
  ⟨fun a => by
    have := charsLe_total a.data a.data
    unfold strLe; tauto⟩

/-- Python `sorted` on a list of strings. -/
def sortStr (l : List String) : List String := List.insertionSort strLe l

/-- Result of `JobDescriptionAnalyzer.extract_skills_from_job` (the dict
with keys 'required', 'preferred', 'all'). -/
structure JobSkills where
  required : List String
  preferred : List String
  all : List String
deriving DecidableEq

/-- The categorization inside `extract_skills_from_job`: the loop over
the extracted skills (each goes to `required` iff `required_text` is
non-empty and contains it verbatim, to `preferred` otherwise, modelled
as two filters over the pinned-order list), the `list(set(...))` dedup
of both buckets, and the 70/30 fallback re-split. -/
def categorize_pair (all_skills : List String) (required_text : List Char) :
    List String × List String :=
  let required0 := all_skills.filter fun s =>
    !required_text.isEmpty && hasSub s.data required_text
  let preferred0 := all_skills.filter fun s =>
    !(!required_text.isEmpty && hasSub s.data required_text)
  let required1 := required0.dedup
  let preferred1 := preferred0.dedup
  if preferred1 = [] ∧ 3 < required1.length then
    (required1.take (splitPoint required1.length),
     required1.drop (splitPoint required1.length))
  else (required1, preferred1)

/-- `JobDescriptionAnalyzer.extract_skills_from_job`: extract the
skills, locate the required text, categorize, and sort the three
result lists. -/
def extract_skills_from_job (text : String) : JobSkills :=
  let all_skills := extract_skills_from_text text
  let required_text := findRequiredText (lowerChars text.data)
  let pair := categorize_pair all_skills required_text
  { required := sortStr pair.1
    preferred := sortStr pair.2
    all := sortStr all_skills }

/-! ### Data structures (src/cv_parser.py dataclasses) -/

structure PersonalInfo where
  name : String := ""
  email : String := ""
  phone : String := ""
  location : String := ""
  linkedin : String := ""
  github : String := ""
deriving DecidableEq

/-- `CVData`.  The `skills` dict is modelled as an association list
(category name to skill list); only its values are ever read. -/
structure CVData where
  personal_info : PersonalInfo
  skills : List (String × List String) := []
  raw_text : String := ""
  original_file_path : String := ""
deriving DecidableEq

structure JobRequirements where
  job_title : String := ""
  company : String := ""
  required_skills : List String := []
  preferred_skills : List String := []
  all_skills : List String := []
  responsibilities : List String := []
deriving DecidableEq

/-- Python `str.lower()`. -/
def strLower (s : String) : String := String.mk (lowerChars s.data)

/-! ### Rounding

Python `round(x, 1)` rounds to one decimal place with ties going to the
even last digit.  Scores are modelled as exact rationals; the weights
`0.7` and `0.3` are modelled as `7/10` and `3/10` (the binary doubles
differ from these by less than `2^-53`, which cannot affect any of the
score values the claims exercise). -/

/-- Round to the nearest integer, ties to the even neighbour. -/
def roundHalfEven (q : ℚ) : ℤ :=
  let n := ⌊q⌋
  if q - n < 1 / 2 then n
  else if 1 / 2 < q - n then n + 1
  else if n % 2 = 0 then n else n + 1

/-- Python `round(q, 1)`. -/
def round1 (q : ℚ) : ℚ := (roundHalfEven (10 * q) : ℚ) / 10

/-! ### KeywordMatcher (src/cv_parser.py, class KeywordMatcher) -/

/-- The candidate skill set built at the top of `calculate_match_score`:
the union of the lowercased skill lists over every category of the
`skills` dict. -/
def cv_skills_set (skills : List (String × List String)) : Finset String :=
  ((skills.map fun kv => kv.2.map strLower).flatten).toFinset

/-- The result dict of `KeywordMatcher.calculate_match_score`. -/
structure MatchResults where
  overall_score : ℚ
  required_score : ℚ
  preferred_score : ℚ
  matched_required : List String
  missing_required : List String
  matched_preferred : List String
  missing_preferred : List String
deriving DecidableEq

/-- `KeywordMatcher.calculate_match_score`. -/
def calculate_match_score (cv_data : CVData) (job_req : JobRequirements) :
    MatchResults :=
  let cv_skills := cv_skills_set cv_data.skills
  let job_required := (job_req.required_skills.map strLower).toFinset
  let job_preferred := (job_req.preferred_skills.map strLower).toFinset
  let matched_required := cv_skills ∩ job_required
  let missing_required := job_required \ cv_skills
  let matched_preferred := cv_skills ∩ job_preferred
  let missing_preferred := job_preferred \ cv_skills
  let required_score : ℚ :=
    if job_required = ∅ then 100
    else (matched_required.card : ℚ) / (job_required.card : ℚ) * 100
  let preferred_score : ℚ :=
    if job_preferred = ∅ then 100
    else (matched_preferred.card : ℚ) / (job_preferred.card : ℚ) * 100
  let overall_score : ℚ := required_score * (7 / 10) + preferred_score * (3 / 10)
  { overall_score := round1 overall_score
    required_score := round1 required_score
    preferred_score := round1 preferred_score
    matched_required := matched_required.sort strLe
    missing_required := missing_required.sort strLe
    matched_preferred := matched_preferred.sort strLe
    missing_preferred := missing_preferred.sort strLe }

/-! ### CVParser (src/cv_parser.py, class CVParser)

`extract_text_from_pdf` hands the file to the PyPDF2 collaborator inside
a `try`: on success it concatenates every page text plus a newline; any
failure is caught, a warning is printed, and the accumulated (empty)
string is returned — no exception escapes.  The collaborator is modelled
as `Option (List String)` (none = the file cannot be read).  The
contact-info pattern matching of `extract_personal_info` is orthogonal
to every claim below and is passed in as an opaque-to-the-theorem
function argument applied to the same raw text. -/

def extract_text_from_pdf (pages : Option (List String)) : String :=
  match pages with
  | none => ""
  | some ps => String.mk ((ps.map fun p => p.data ++ ['\n']).flatten)

/-- `CVParser.parse_cv` on a `.pdf` path: extract the raw text, derive
contact info and the sorted technical skill list from it, and return the
`CVData`; there is no error path for unreadable content. -/
def parse_cv_pdf (extract_personal_info : String → PersonalInfo)
    (pages : Option (List String)) (file_path : String) : CVData :=
  let raw_text := extract_text_from_pdf pages
  { personal_info := extract_personal_info raw_text
    skills := [("technical", sortStr (extract_skills_from_text raw_text))]
    raw_text := raw_text
    original_file_path := file_path }

/-! ### CVExporter (src/cv_exporter.py, class CVExporter)

A python-docx document is modelled as the ordered list of its
paragraphs; a paragraph carries its visible text (the concatenation of
its run texts — run formatting such as bold, size and colour does not
affect any claim) and a kind distinguishing ordinary paragraphs,
headings (`doc.add_heading`) and page-break paragraphs
(`doc.add_page_break`).  The source's element-level detach/`addnext`
insertion dance has the net effect of a list splice, which is what
`export_docx_paragraphs` performs; the comments inside it record the
correspondence step by step. -/

inductive ParKind where
  | normal
  | heading
  | pageBreak
deriving DecidableEq

structure Paragraph where
  kind : ParKind := ParKind.normal
  text : String := ""
deriving DecidableEq

/-- Python `' '.join(text.strip().upper().split())` — the
`text_clean` normalization used throughout `export_docx`. -/
def textClean (s : String) : List Char :=
  joinSep [' '] (splitWS (upperChars (trimChars s.data)))

/-- The exact header list of `export_docx` pass 1. -/
def canonicalHeaders : List (List Char) :=
  ["SKILLS".data, "TECHNICAL SKILLS".data, "COMPETENCIES".data, "EXPERTISE".data,
   "TECHNOLOGIES".data, "CORE SKILLS".data, "HARD SKILLS".data,
   "PROFESSIONAL SKILLS".data]

/-- The false-positive exclusions of `export_docx` pass 2. -/
def headerExclusions : List (List Char) :=
  ["EXPERIENCE".data, "EDUCATION".data, "PROFESSIONAL".data, "WORK".data,
   "INTERNSHIP".data, "PROJECT".data]

/-- The `next_section_keywords` list of `export_docx`. -/
def nextSectionKeywords : List (List Char) :=
  ["EXPERIENCE".data, "EDUCATION".data, "PROJECTS".data, "CERTIFICATIONS".data,
   "LANGUAGES".data, "AWARDS".data, "PUBLICATIONS".data, "WORK EXPERIENCE".data,
   "PROFESSIONAL EXPERIENCE".data, "TRAINING".data, "CERTIFICATES".data]

/-- `skills_start` detection: pass 1 (exact match against the canonical
headers), then pass 2 (contains "SKILLS" and none of the exclusions). -/
def findSkillsStart (paras : List Paragraph) : Option Nat :=
  match paras.findIdx? (fun p => canonicalHeaders.contains (textClean p.text)) with
  | some i => some i
  | none =>
    paras.findIdx? fun p =>
      hasSub "SKILLS".data (textClean p.text) &&
        !(headerExclusions.any fun w => hasSub w (textClean p.text))

/-- A paragraph ends the skills section when its cleaned text contains a
next-section keyword and is shorter than 50 characters. -/
def isNextSection (p : Paragraph) : Bool :=
  let tc := textClean p.text
  (nextSectionKeywords.any fun w => hasSub w tc) && decide (tc.length < 50)

/-- `skills_end`: first index after `start` whose paragraph satisfies
`isNextSection`; defaults to the paragraph count. -/
def findSkillsEnd (paras : List Paragraph) (start : Nat) : Nat :=
  match (paras.drop (start + 1)).findIdx? isNextSection with
  | some j => start + 1 + j
  | none => paras.length

/-! Existing-skills extraction (`CVExporter.extract_existing_skills`). -/

/-- Delimiters of `re.split(r'[•\-\*,]', ...)`. -/
def isSkillDelim (c : Char) : Bool := c == '•' || c == '-' || c == '*' || c == ','

def splitAnyAux (cur : List Char) : List Char → List (List Char)
  | [] => [cur.reverse]
  | c :: t =>
    if isSkillDelim c then cur.reverse :: splitAnyAux [] t
    else splitAnyAux (c :: cur) t

def splitAnyDelim (l : List Char) : List (List Char) := splitAnyAux [] l

/-- Python `[s.strip() for s in re.split(r'[•\-\*,]', text) if s.strip()]`. -/
def tokenizeSkills (l : List Char) : List String :=
  (((splitAnyDelim l).map trimChars).filter fun w => !w.isEmpty).map String.mk

/-- The optional `s`/`S` of the pattern `<base>s?:?` (IGNORECASE). -/
def dropOptS : List Char → List Char
  | c :: t => if c.toLower == 's' then t else c :: t
  | [] => []

/-- The optional `:` of the pattern `<base>s?:?`. -/
def dropOptColon : List Char → List Char
  | c :: t => if c == ':' then t else c :: t
  | [] => []

/-- One match attempt of the pattern `<base>s?:?` (IGNORECASE) at the
head of `u`: the literal `base` case-insensitively, then an optional
`s`/`S`, then an optional `:`; returns the remainder after the match. -/
def matchLabelAt (base : List Char) (u : List Char) : Option (List Char) :=
  if base.isEmpty then none
  else if startsWithChars base (lowerChars u) then
    some (dropOptColon (dropOptS (u.drop base.length)))
  else none

lemma length_dropOptS_le (l : List Char) : (dropOptS l).length ≤ l.length := by
  cases l with
  | nil => simp [dropOptS]
  | cons c t => by_cases h : c.toLower == 's' <;> simp [dropOptS, h]

lemma length_dropOptColon_le (l : List Char) :
    (dropOptColon l).length ≤ l.length := by
  cases l with
  | nil => simp [dropOptColon]
  | cons c t => by_cases h : c == ':' <;> simp [dropOptColon, h]

lemma startsWithChars_length_le :
    ∀ p u : List Char, startsWithChars p u = true → p.length ≤ u.length := by
  intro p
  induction p with
  | nil => intro u _; simp
  | cons a as ih =>
    intro u h
    cases u with
    | nil => simp [startsWithChars] at h
    | cons b bs =>
      simp only [startsWithChars, Bool.and_eq_true] at h
      simpa using Nat.succ_le_succ (ih bs h.2)

/-- Every successful label match strictly consumes characters, so text
length is an adequate fuel bound for the splitting loop below. -/
lemma matchLabelAt_length_lt {base u r : List Char}
    (h : matchLabelAt base u = some r) : r.length < u.length := by
  unfold matchLabelAt at h
  by_cases hb : base.isEmpty
  · simp [hb] at h
  · by_cases hs : startsWithChars base (lowerChars u) = true
    · simp only [hb, hs, if_true, if_false, Bool.false_eq_true] at h
      have hr := Option.some.inj h
      have hlen : base.length ≤ u.length := by
        have := startsWithChars_length_le base (lowerChars u) hs
        simpa [lowerChars] using this
      have hbpos : 0 < base.length := by
        cases base with
        | nil => simp at hb
        | cons x xs => simp
      have h2 := length_dropOptS_le (u.drop base.length)
      have h3 := length_dropOptColon_le (dropOptS (u.drop base.length))
      have hdrop : (u.drop base.length).length = u.length - base.length :=
        List.length_drop _ _
      rw [← hr]
      omega
    · simp [hb, hs] at h

/-- Python `re.split(r'<base>s?:?', text, flags=re.IGNORECASE)`: split
on every non-overlapping match.  Structural recursion on a fuel bounded
by the text length (adequate by `matchLabelAt_length_lt`); the fuel-out
branch is unreachable for the wrapper below. -/
def splitLabelFuel (base : List Char) : Nat → List Char → List Char →
    List (List Char)
  | 0, cur, _ => [cur.reverse]
  | fuel + 1, cur, u =>
    match matchLabelAt base u with
    | some rest => cur.reverse :: splitLabelFuel base fuel [] rest
    | none =>
      match u with
      | [] => [cur.reverse]
      | c :: t => splitLabelFuel base fuel (c :: cur) t

def splitLabel (base : List Char) (t : List Char) : List (List Char) :=
  splitLabelFuel base (t.length + 1) [] t

/-- Accumulator for `extract_existing_skills`. -/
structure ExistingSkills where
  soft_skills : List String
  hard_skills : List String
  raw_text : List String
deriving DecidableEq

/-- The technical cue words of the unlabeled-line heuristic. -/
def techCues : List (List Char) :=
  ["python".data, "machine learning".data, "docker".data, "sql".data,
   "programming".data]

/-- The interpersonal cue words of the unlabeled-line heuristic. -/
def softCues : List (List Char) :=
  ["communication".data, "teamwork".data, "problem".data, "creativity".data,
   "leadership".data]

/-- The per-line classification inside `extract_existing_skills`:
a "soft skill" line feeds the soft list, a "hard skill" line the hard
list, an unlabeled line is tokenized whole and bucketed by cue words
(default: hard). -/
def classifyLine (acc : ExistingSkills) (text : List Char) : ExistingSkills :=
  let text_lower := lowerChars text
  if hasSub "soft skill".data text_lower then
    let parts := splitLabel "soft skill".data text
    if 1 < parts.length then
      { acc with soft_skills := acc.soft_skills ++ tokenizeSkills (parts.getD 1 []) }
    else acc
  else if hasSub "hard skill".data text_lower then
    let parts := splitLabel "hard skill".data text
    if 1 < parts.length then
      { acc with hard_skills := acc.hard_skills ++ tokenizeSkills (parts.getD 1 []) }
    else acc
  else
    let skills := tokenizeSkills text
    if techCues.any fun w => hasSub w text_lower then
      { acc with hard_skills := acc.hard_skills ++ skills }
    else if softCues.any fun w => hasSub w text_lower then
      { acc with soft_skills := acc.soft_skills ++ skills }
    else
      { acc with hard_skills := acc.hard_skills ++ skills }

/-- `CVExporter.extract_existing_skills doc skills_start skills_end`:
collect the stripped non-empty texts of the paragraphs strictly between
the header and the end boundary, then classify each. -/
def extract_existing_skills (paras : List Paragraph) (skills_start skills_end : Nat) :
    ExistingSkills :=
  let raws := (((paras.drop (skills_start + 1)).take (skills_end - skills_start - 1)).map
    fun p => trimChars p.text.data).filter fun w => !w.isEmpty
  raws.foldl classifyLine
    { soft_skills := [], hard_skills := [], raw_text := raws.map String.mk }

/-- The case-insensitive merge of `export_docx`: keep the first
occurrence (original stripped casing) of each nonempty skill, comparing
by lowercased stripped form. -/
def mergeDedupAux : List String → List (List Char) → List String → List String
  | [], _, acc => acc.reverse
  | s :: rest, seen, acc =>
    let sl := trimChars (lowerChars s.data)
    if ¬ sl.isEmpty = true ∧ sl ∉ seen then
      mergeDedupAux rest (sl :: seen) (String.mk (trimChars s.data) :: acc)
    else mergeDedupAux rest seen acc

def merge_skills (l : List String) : List String := mergeDedupAux l [] []

/-- Python `" • ".join(skills)`. -/
def joinBullets (skills : List String) : String :=
  String.mk (joinSep " • ".data (skills.map String.data))

def blankParagraph : Paragraph := {}

def hardSkillsParagraph (skills : List String) : Paragraph :=
  { text := "Hard Skills: " ++ joinBullets skills }

def softSkillsParagraph (skills : List String) : Paragraph :=
  { text := "Soft Skills: " ++ joinBullets skills }

def technicalSkillsHeading : Paragraph :=
  { kind := ParKind.heading, text := "TECHNICAL SKILLS" }

def pageBreakParagraph : Paragraph := { kind := ParKind.pageBreak }

/-- The document transformation of `CVExporter.export_docx` (everything
between loading the document and serializing it).  When a header is
found at index `h` with end boundary `e`: the source removes paragraphs
`h+1 .. e-1`, then inserts after the header — via repeated
detach/`addnext` — a blank paragraph, an optional "Soft Skills: "
paragraph followed by a blank one, the merged "Hard Skills: " paragraph,
and a final blank paragraph; the net effect is the list splice below.
When no header is found, the source appends a page break, a
"TECHNICAL SKILLS" heading and a "Hard Skills: " paragraph holding only
the incoming skills (no merge). -/
def export_docx_paragraphs (paras : List Paragraph) (tailored_skills : List String) :
    List Paragraph :=
  match findSkillsStart paras with
  | some h =>
    let e := findSkillsEnd paras h
    let existing := extract_existing_skills paras h e
    let merged := merge_skills (existing.hard_skills ++ tailored_skills)
    let inserted :=
      [blankParagraph]
        ++ (if existing.soft_skills.isEmpty then []
            else [softSkillsParagraph existing.soft_skills, blankParagraph])
        ++ [hardSkillsParagraph merged, blankParagraph]
    paras.take (h + 1) ++ inserted ++ paras.drop e
  | none =>
    paras ++ [pageBreakParagraph, technicalSkillsHeading,
      hardSkillsParagraph tailored_skills]

inductive ExportError where
  | sourceNotFound (path : String)
deriving DecidableEq

/-- `CVExporter.export_docx`: the guard
`if not os.path.exists(original_file_path): raise FileNotFoundError(...)`
runs before the document is opened; the file system is modelled as a map
from paths to document contents, and the raised exception as the
`Except.error` branch.  On success the transformed paragraph list stands
for the serialized output buffer. -/
def export_docx (files : String → Option (List Paragraph))
    (original_file_path : String) (tailored_skills : List String) :
    Except ExportError (List Paragraph) :=
  match files original_file_path with
  | none => Except.error (ExportError.sourceNotFound original_file_path)
  | some doc => Except.ok (export_docx_paragraphs doc tailored_skills)

/-! ### General lemmas about the embedded operations -/

lemma sortStr_perm (l : List String) : (sortStr l).Perm l :=
  List.perm_insertionSort strLe l

lemma mem_sortStr {s : String} {l : List String} : s ∈ sortStr l ↔ s ∈ l :=
  (sortStr_perm l).mem_iff

lemma length_sortStr (l : List String) : (sortStr l).length = l.length :=
  (sortStr_perm l).length_eq

lemma nodup_sortStr {l : List String} (h : l.Nodup) : (sortStr l).Nodup :=
  ((sortStr_perm l).nodup_iff).mpr h

lemma sorted_sortStr (l : List String) : List.Sorted strLe (sortStr l) :=
  List.sorted_insertionSort strLe l

/-! ### Claims -/

/-- Claim C1: for a document whose paragraphs are a header "SKILLS", then
one paragraph "Hard Skills: Java, SQL", then a paragraph "EXPERIENCE"
followed by arbitrary content, exporting with incoming skills ["Python"]
yields a document containing exactly one "Hard Skills:" paragraph,
listing Java, SQL, Python in that order, with the "EXPERIENCE" paragraph
and every paragraph after it unchanged; the merge deduplicates
case-insensitively, so no duplicate arises even when "Python" is already
present as "python". -/
theorem C1_export_roundtrip (tail : List Paragraph) :
    export_docx_paragraphs
        ({ text := "SKILLS" } :: { text := "Hard Skills: Java, SQL" }
          :: { text := "EXPERIENCE" } :: tail) ["Python"]
      = { text := "SKILLS" } :: blankParagraph
          :: { text := "Hard Skills: Java • SQL • Python" } :: blankParagraph
          :: { text := "EXPERIENCE" } :: tail
    ∧ (export_docx_paragraphs
        ({ text := "SKILLS" } :: { text := "Hard Skills: Java, SQL" }
          :: { text := "EXPERIENCE" } :: tail) ["Python"]).countP
          (fun p => hasSub "Hard Skills:".data p.text.data)
        = 1 + tail.countP (fun p => hasSub "Hard Skills:".data p.text.data)
    ∧ export_docx_paragraphs
        [{ text := "SKILLS" }, { text := "Hard Skills: Java, SQL, python" },
         { text := "EXPERIENCE" }] ["Python"]
      = [{ text := "SKILLS" }, blankParagraph,
         { text := "Hard Skills: Java • SQL • python" }, blankParagraph,
         { text := "EXPERIENCE" }] := by
  refine ⟨rfl, ?_, by decide⟩
  show List.countP _
      ({ text := "SKILLS" } :: blankParagraph
        :: { text := "Hard Skills: Java • SQL • Python" } :: blankParagraph
        :: { text := "EXPERIENCE" } :: tail) = _
  have e1 : hasSub "Hard Skills:".data "SKILLS".data = false := by decide
  have e2 : hasSub "Hard Skills:".data "".data = false := by decide
  have e3 : hasSub "Hard Skills:".data "Hard Skills: Java • SQL • Python".data
      = true := by decide
  have e4 : hasSub "Hard Skills:".data "EXPERIENCE".data = false := by decide
  simp [List.countP_cons, blankParagraph, e1, e2, e3, e4, Nat.add_comm]

/-- Claim C7: exporting a document with no skills-like header (neither an
exact canonical header nor a tolerated "SKILLS"-containing paragraph)
with incoming skills ["Docker"] appends exactly one page break, one
"TECHNICAL SKILLS" heading and one "Hard Skills: Docker" paragraph at the
end, with every original paragraph unchanged and no merge with existing
content. -/
theorem C7_no_header_fallback (paras : List Paragraph)
    (h : findSkillsStart paras = none) :
    export_docx_paragraphs paras ["Docker"]
      = paras ++ [pageBreakParagraph, technicalSkillsHeading,
          hardSkillsParagraph ["Docker"]]
    ∧ hardSkillsParagraph ["Docker"]
      = { kind := ParKind.normal, text := "Hard Skills: Docker" } := by
  constructor
  · unfold export_docx_paragraphs
    rw [h]
  · decide

/-- Witness for C7 at a concrete header-free document. -/
theorem C7_no_header_fallback_witness :
    export_docx_paragraphs [{ kind := ParKind.normal, text := "Experience at ACME" }]
        ["Docker"]
      = [{ kind := ParKind.normal, text := "Experience at ACME" },
         pageBreakParagraph, technicalSkillsHeading,
         hardSkillsParagraph ["Docker"]] :=
  (C7_no_header_fallback [{ kind := ParKind.normal, text := "Experience at ACME" }]
    (by decide)).1

/-- Claim C8: exporting against a path that references no existing
document yields the source-not-found error (the raised
`FileNotFoundError`), and no output buffer is produced. -/
theorem C8_source_not_found (files : String → Option (List Paragraph))
    (path : String) (tailored_skills : List String) (h : files path = none) :
    export_docx files path tailored_skills
      = Except.error (ExportError.sourceNotFound path)
    ∧ ∀ out : List Paragraph,
        export_docx files path tailored_skills ≠ Except.ok out := by
  have he : export_docx files path tailored_skills
      = Except.error (ExportError.sourceNotFound path) := by
    unfold export_docx
    rw [h]
  exact ⟨he, fun out hok => Except.noConfusion (he ▸ hok)⟩

/-- Witness for C8 on an empty file system. -/
theorem C8_source_not_found_witness :
    export_docx (fun _ => none) "resume.docx" ["Python"]
      = Except.error (ExportError.sourceNotFound "resume.docx") :=
  (C8_source_not_found (fun _ => none) "resume.docx" ["Python"] rfl).1

/-! ### Whole-word matching lemmas -/

lemma startsWithChars_iff_append {p u : List Char} :
    startsWithChars p u = true ↔ ∃ r, u = p ++ r := by
  induction p generalizing u with
  | nil => simp [startsWithChars]
  | cons a as ih =>
    cases u with
    | nil => simp [startsWithChars]
    | cons b bs =>
      simp only [startsWithChars, Bool.and_eq_true, beq_iff_eq]
      constructor
      · rintro ⟨rfl, h⟩
        rcases ih.mp h with ⟨r, rfl⟩
        exact ⟨r, rfl⟩
      · rintro ⟨r, he⟩
        injection he with h1 h2
        exact ⟨h1.symm, ih.mpr ⟨r, h2⟩⟩

lemma mem_of_getLastQ : ∀ {l : List Char} {x : Char}, l.getLast? = some x → x ∈ l := by
  intro l
  induction l with
  | nil => intro x h; simp at h
  | cons a t ih =>
    intro x h
    cases t with
    | nil =>
      simp only [List.getLast?_singleton, Option.some.injEq] at h
      simp [h]
    | cons b u =>
      rw [List.getLast?_cons_cons] at h
      exact List.mem_cons_of_mem a (ih h)

/-- In a text made entirely of word characters, a word-bounded search for
a non-empty pattern can only succeed when the pattern is the whole text:
every interior position sits between two word characters, so no word
boundary holds there. -/
lemma searchBoundedAux_allWord {p : List Char} (hp : p ≠ []) :
    ∀ (t : List Char) (prev : Option Char),
      t.all isWordChar = true →
      (∀ c, prev = some c → isWordChar c = true) →
      searchBoundedAux p prev t = true → prev = none ∧ p = t := by
  intro t
  induction t with
  | nil =>
    intro prev _ _ h
    obtain ⟨a, as, rfl⟩ := List.exists_cons_of_ne_nil hp
    simp [searchBoundedAux, matchHere, startsWithChars] at h
  | cons c t' ih =>
    intro prev hall hprev h
    have hw : isWordChar c = true ∧ t'.all isWordChar = true := by
      simpa [Bool.and_eq_true] using hall
    simp only [searchBoundedAux, Bool.or_eq_true] at h
    rcases h with hm | hrec
    · simp only [matchHere, Bool.and_eq_true] at hm
      obtain ⟨⟨hb1, hsw⟩, hb2⟩ := hm
      rcases startsWithChars_iff_append.mp hsw with ⟨r, hr⟩
      obtain ⟨a, as, rfl⟩ := List.exists_cons_of_ne_nil hp
      have hr' : c :: t' = a :: (as ++ r) := hr
      injection hr' with hca hta
      have haw : isWordChar a = true := hca ▸ hw.1
      have hb1' : optWordChar prev = false := by
        have hbne : optWordChar prev ≠ optWordChar (some a) := by
          simpa [boundary, bne_iff_ne] using hb1
        have hwa : optWordChar (some a) = true := by simp [optWordChar, haw]
        rw [hwa] at hbne
        exact Bool.eq_false_iff.mpr hbne
      have hprevnone : prev = none := by
        cases prev with
        | none => rfl
        | some d =>
          have hd := hprev d rfl
          simp [optWordChar, hd] at hb1'
      refine ⟨hprevnone, ?_⟩
      have hnenil : (a :: as) ≠ ([] : List Char) := by simp
      have hlast : (a :: as).getLast? = some ((a :: as).getLast hnenil) :=
        List.getLast?_eq_getLast _ hnenil
      have hlmem : (a :: as).getLast hnenil ∈ c :: t' := by
        rw [hr]
        exact List.mem_append_left r (mem_of_getLastQ hlast)
      have hlw : isWordChar ((a :: as).getLast hnenil) = true := by
        have := List.all_eq_true.mp hall
        exact this _ hlmem
      have hdrop : (c :: t').drop (a :: as).length = r := by
        rw [hr]
        exact List.drop_left _ _
      rw [hlast, hdrop] at hb2
      cases r with
      | nil => simpa using hr.symm
      | cons x xs =>
        have hxw : isWordChar x = true := by
          have := List.all_eq_true.mp hall
          refine this x ?_
          rw [hr]
          exact List.mem_append_right _ (by simp)
        simp [boundary, optWordChar, hlw, hxw] at hb2
    · have hres := ih (some c) hw.2
        (fun d hd => by injection hd with hd; exact hd ▸ hw.1) hrec
      exact absurd hres.1 (by simp)

/-- Word-bounded search over an all-word-character text succeeds only for
the full text. -/
lemma searchBounded_allWord {p t : List Char} (hp : p ≠ [])
    (hall : t.all isWordChar = true) (h : searchBounded p t = true) : p = t :=
  (searchBoundedAux_allWord hp t none hall (fun c hc => by cases hc) h).2

lemma mem_if_singleton {c : Prop} [Decidable c] {s x : String}
    (h : s ∈ (if c then [x] else [])) : s = x := by
  split at h
  · simpa using h
  · simp at h

/-- Claim C4: every extracted skill belongs to the fixed vocabulary or to
the three abbreviation expansions; extraction from the empty string is
empty; matching is whole-word, so "javascript" is not extracted from a
text containing only "typescript", and in general a non-empty pattern
word-bounded-matches inside a single word only when it equals that whole
word. -/
theorem C4_extractor_vocabulary_bound :
    (∀ t : String, ∀ s ∈ extract_skills_from_text t,
        s ∈ technical_skills
          ∨ s ∈ (["machine learning", "artificial intelligence", "javascript"] :
              List String))
    ∧ extract_skills_from_text "" = []
    ∧ ("javascript" ∉ extract_skills_from_text "typescript"
        ∧ "typescript" ∈ extract_skills_from_text "typescript")
    ∧ (∀ p t : List Char, p ≠ [] → t.all isWordChar = true →
        searchBounded p t = true → p = t) := by
  refine ⟨?_, by decide, ⟨by decide, by decide⟩,
    fun p t hp hall h => searchBounded_allWord hp hall h⟩
  intro t s hs
  unfold extract_skills_from_text at hs
  rw [List.mem_dedup] at hs
  simp only [List.mem_append] at hs
  rcases hs with ((hf | h1) | h2) | h3
  · exact Or.inl (List.mem_filter.mp hf).1
  · right; rw [mem_if_singleton h1]; simp
  · right; rw [mem_if_singleton h2]; simp
  · right; rw [mem_if_singleton h3]; simp

/-- Witness for C4: the subset property instantiated on a concrete text,
and the whole-word property instantiated at a concrete pattern. -/
theorem C4_extractor_vocabulary_bound_witness :
    ("python" ∈ technical_skills
      ∨ "python" ∈ (["machine learning", "artificial intelligence", "javascript"] :
          List String))
    ∧ "python".data = "python".data := by
  constructor
  · exact C4_extractor_vocabulary_bound.1 "I use Python daily" "python" (by decide)
  · exact C4_extractor_vocabulary_bound.2.2.2 "python".data "python".data
      (by decide) (by decide) (by decide)

/-! ### Analyzer lemmas and claims C2, C10 -/

lemma extract_skills_nodup (t : String) : (extract_skills_from_text t).Nodup := by
  simp only [extract_skills_from_text]
  exact List.nodup_dedup _

/-- Invariants of the categorization pass, for any duplicate-free skill
list and any required text: the two buckets are disjoint, their union is
the input as a set, and each is duplicate-free. -/
lemma categorize_pair_spec (A : List String) (rt : List Char) :
    (categorize_pair A rt).1.Disjoint (categorize_pair A rt).2
    ∧ (∀ s, (s ∈ (categorize_pair A rt).1 ∨ s ∈ (categorize_pair A rt).2) ↔ s ∈ A)
    ∧ (categorize_pair A rt).1.Nodup ∧ (categorize_pair A rt).2.Nodup := by
  unfold categorize_pair
  set p : String → Bool := fun s => !rt.isEmpty && hasSub s.data rt with hp
  by_cases hcond :
      (A.filter fun s => !(p s)).dedup = [] ∧ 3 < (A.filter p).dedup.length
  · rw [if_pos hcond]
    have hnd1 : (A.filter p).dedup.Nodup := List.nodup_dedup _
    have hallp : ∀ s ∈ A, p s = true := by
      intro s hs
      have hnil : (A.filter fun s => !(p s)) = [] :=
        (List.dedup_eq_nil _).mp hcond.1
      have := List.filter_eq_nil_iff.mp hnil s hs
      simpa using this
    have hmem1 : ∀ s, s ∈ (A.filter p).dedup ↔ s ∈ A := by
      intro s
      rw [List.mem_dedup, List.mem_filter]
      exact ⟨fun h => h.1, fun h => ⟨h, hallp s h⟩⟩
    refine ⟨List.disjoint_take_drop hnd1 (le_refl _), ?_, ?_, ?_⟩
    · intro s
      rw [← hmem1 s]
      constructor
      · rintro (h | h)
        · exact (List.take_sublist _ _).mem h
        · exact (List.drop_sublist _ _).mem h
      · intro h
        rw [← List.take_append_drop (splitPoint (A.filter p).dedup.length)
          ((A.filter p).dedup)] at h
        exact List.mem_append.mp h
    · exact (List.take_sublist _ _).nodup hnd1
    · exact (List.drop_sublist _ _).nodup hnd1
  · rw [if_neg hcond]
    refine ⟨?_, ?_, List.nodup_dedup _, List.nodup_dedup _⟩
    · intro s hs1 hs2
      rw [List.mem_dedup, List.mem_filter] at hs1 hs2
      have h1 : p s = true := hs1.2
      have h2 : (!(p s)) = true := hs2.2
      rw [h1] at h2
      simp at h2
    · intro s
      rw [List.mem_dedup, List.mem_filter, List.mem_dedup, List.mem_filter]
      constructor
      · rintro (h | h) <;> exact h.1
      · intro h
        rcases Bool.eq_false_or_eq_true (p s) with hb | hb
        · exact Or.inl ⟨h, hb⟩
        · refine Or.inr ⟨h, ?_⟩
          show (!(p s)) = true
          rw [hb]
          rfl

/-- Claim C10: for every job-posting text the categorization returns
disjoint required and preferred lists whose union as a set is the
all-skills list, each duplicate-free and sorted lexicographically (by
character code, the order of Python `sorted`). -/
theorem C10_categorization_invariants (text : String) :
    (extract_skills_from_job text).required.Disjoint
        (extract_skills_from_job text).preferred
    ∧ (∀ s : String,
        (s ∈ (extract_skills_from_job text).required
          ∨ s ∈ (extract_skills_from_job text).preferred)
          ↔ s ∈ (extract_skills_from_job text).all)
    ∧ (extract_skills_from_job text).required.Nodup
    ∧ (extract_skills_from_job text).preferred.Nodup
    ∧ (extract_skills_from_job text).all.Nodup
    ∧ List.Sorted strLe (extract_skills_from_job text).required
    ∧ List.Sorted strLe (extract_skills_from_job text).preferred
    ∧ List.Sorted strLe (extract_skills_from_job text).all := by
  have hA : (extract_skills_from_text text).Nodup := extract_skills_nodup text
  obtain ⟨hdisj, hmem, hnd1, hnd2⟩ :=
    categorize_pair_spec (extract_skills_from_text text)
      (findRequiredText (lowerChars text.data))
  have hreq : (extract_skills_from_job text).required
      = sortStr (categorize_pair (extract_skills_from_text text)
          (findRequiredText (lowerChars text.data))).1 := rfl
  have hpref : (extract_skills_from_job text).preferred
      = sortStr (categorize_pair (extract_skills_from_text text)
          (findRequiredText (lowerChars text.data))).2 := rfl
  have hall : (extract_skills_from_job text).all
      = sortStr (extract_skills_from_text text) := rfl
  rw [hreq, hpref, hall]
  refine ⟨?_, ?_, nodup_sortStr hnd1, nodup_sortStr hnd2, nodup_sortStr hA,
    sorted_sortStr _, sorted_sortStr _, sorted_sortStr _⟩
  · intro s hs1 hs2
    exact hdisj (mem_sortStr.mp hs1) (mem_sortStr.mp hs2)
  · intro s
    rw [mem_sortStr, mem_sortStr, mem_sortStr]
    exact hmem s

/-- Claim C2 counterexample: a posting with ten extracted skills and no
"required"/"must have"/"preferred" labelling at all is classified with
zero required and ten preferred skills — the 70/30 fallback never fires,
because the first pass put every skill into preferred, not required; so
the claimed 7/3 split is false for such postings. -/
theorem C2_no_labels_counterexample :
    findRequiredText
        (lowerChars
          "python java sql docker kubernetes react angular pandas numpy git".data)
      = []
    ∧ hasSub "preferred".data
        (lowerChars
          "python java sql docker kubernetes react angular pandas numpy git".data)
      = false
    ∧ (extract_skills_from_job
        "python java sql docker kubernetes react angular pandas numpy git").all.length
      = 10
    ∧ (extract_skills_from_job
        "python java sql docker kubernetes react angular pandas numpy git").required.length
      = 0
    ∧ (extract_skills_from_job
        "python java sql docker kubernetes react angular pandas numpy git").preferred.length
      = 10
    ∧ ¬ ((extract_skills_from_job
          "python java sql docker kubernetes react angular pandas numpy git").required.length
          = 7
        ∧ (extract_skills_from_job
          "python java sql docker kubernetes react angular pandas numpy git").preferred.length
          = 3) := by
  refine ⟨by decide, by decide, by decide, by decide, by decide, ?_⟩
  intro h
  have := h.1
  rw [show (extract_skills_from_job
      "python java sql docker kubernetes react angular pandas numpy git").required.length
      = 0 from by decide] at this
  exact absurd this (by decide)

/-- Claim C2 as amended: when the posting's required-section text covers
every one of its ten extracted skills (e.g. a "required:" label with no
"preferred"/"nice"/"bonus" section), the first pass puts all ten into
required and none into preferred, and the 70/30 fallback re-splits them
into exactly 7 required and 3 preferred
(split point `int(10 * 0.7) = 7`). -/
theorem C2_fallback_split (text : String)
    (h10 : (extract_skills_from_text text).length = 10)
    (hall : ∀ s ∈ extract_skills_from_text text,
      (!(findRequiredText (lowerChars text.data)).isEmpty
        && hasSub s.data (findRequiredText (lowerChars text.data))) = true) :
    (extract_skills_from_job text).required.length = 7
    ∧ (extract_skills_from_job text).preferred.length = 3 := by
  have hAnodup : (extract_skills_from_text text).Nodup := extract_skills_nodup text
  have hreq0 : (extract_skills_from_text text).filter
      (fun s => !(findRequiredText (lowerChars text.data)).isEmpty
        && hasSub s.data (findRequiredText (lowerChars text.data)))
      = extract_skills_from_text text := List.filter_eq_self.mpr hall
  have hpref0 : (extract_skills_from_text text).filter
      (fun s => !(!(findRequiredText (lowerChars text.data)).isEmpty
        && hasSub s.data (findRequiredText (lowerChars text.data))))
      = [] := by
    rw [List.filter_eq_nil_iff]
    intro s hs
    simp [hall s hs]
  have hpair : categorize_pair (extract_skills_from_text text)
      (findRequiredText (lowerChars text.data))
      = ((extract_skills_from_text text).take 7,
         (extract_skills_from_text text).drop 7) := by
    unfold categorize_pair
    rw [hreq0, hpref0]
    simp only [List.dedup_nil, List.dedup_eq_self.mpr hAnodup, h10]
    rw [if_pos ⟨trivial, by omega⟩]
    rfl
  have hreq : (extract_skills_from_job text).required
      = sortStr (categorize_pair (extract_skills_from_text text)
          (findRequiredText (lowerChars text.data))).1 := rfl
  have hpref : (extract_skills_from_job text).preferred
      = sortStr (categorize_pair (extract_skills_from_text text)
          (findRequiredText (lowerChars text.data))).2 := rfl
  rw [hreq, hpref, hpair]
  constructor
  · rw [length_sortStr, List.length_take, h10]
    omega
  · rw [length_sortStr, List.length_drop, h10]

/-- Witness for C2 as amended: a posting whose "required:" section lists
all ten extracted skills. -/
theorem C2_fallback_split_witness :
    (extract_skills_from_job
        "required: python java sql docker kubernetes react angular pandas numpy git").required.length
      = 7
    ∧ (extract_skills_from_job
        "required: python java sql docker kubernetes react angular pandas numpy git").preferred.length
      = 3 :=
  C2_fallback_split
    "required: python java sql docker kubernetes react angular pandas numpy git"
    (by decide) (by decide)

/-! ### Rounding lemmas -/

lemma roundHalfEven_ge_floor (q : ℚ) : ⌊q⌋ ≤ roundHalfEven q := by
  simp only [roundHalfEven]
  split_ifs <;> omega

lemma roundHalfEven_le_floor_add_one (q : ℚ) : roundHalfEven q ≤ ⌊q⌋ + 1 := by
  simp only [roundHalfEven]
  split_ifs <;> omega

lemma roundHalfEven_mono {q q' : ℚ} (h : q ≤ q') :
    roundHalfEven q ≤ roundHalfEven q' := by
  have hf : ⌊q⌋ ≤ ⌊q'⌋ := Int.floor_mono h
  rcases lt_or_eq_of_le hf with hlt | heq
  · calc roundHalfEven q ≤ ⌊q⌋ + 1 := roundHalfEven_le_floor_add_one q
      _ ≤ ⌊q'⌋ := by omega
      _ ≤ roundHalfEven q' := roundHalfEven_ge_floor q'
  · simp only [roundHalfEven, ← heq]
    split_ifs <;> first | omega | (exfalso; linarith)

lemma round1_mono {q q' : ℚ} (h : q ≤ q') : round1 q ≤ round1 q' := by
  unfold round1
  have h10 : (10 : ℚ) * q ≤ 10 * q' := by linarith
  have hz := roundHalfEven_mono h10
  have hc : ((roundHalfEven (10 * q) : ℤ) : ℚ) ≤ ((roundHalfEven (10 * q') : ℤ) : ℚ) := by
    exact_mod_cast hz
  linarith

lemma round1_hundred : round1 (100 : ℚ) = 100 := by
  have hfl : (⌊(10 : ℚ) * 100⌋ : ℤ) = 1000 := by norm_num
  simp only [round1, roundHalfEven, hfl]
  norm_num

/-! ### Matcher lemmas and claims C3, C5, C6 -/

lemma toFinset_sortFinset (s : Finset String) : (s.sort strLe).toFinset = s := by
  ext x
  simp [List.mem_toFinset, Finset.mem_sort]

lemma inter_inter_sdiff_empty {α : Type} [DecidableEq α] (cv req : Finset α) :
    (cv ∩ req) ∩ (req \ cv) = ∅ := by
  ext x
  simp
  tauto

lemma inter_union_sdiff_self {α : Type} [DecidableEq α] (cv req : Finset α) :
    (cv ∩ req) ∪ (req \ cv) = req := by
  ext x
  simp
  tauto

/-- Claim C3: in every match result, matched and missing are disjoint for
both the required and the preferred pair, and their union is exactly the
job's corresponding skill list lowercased, as a set. -/
theorem C3_matched_missing_partition (cv_data : CVData) (job_req : JobRequirements) :
    ((calculate_match_score cv_data job_req).matched_required.toFinset
        ∩ (calculate_match_score cv_data job_req).missing_required.toFinset = ∅
      ∧ (calculate_match_score cv_data job_req).matched_required.toFinset
          ∪ (calculate_match_score cv_data job_req).missing_required.toFinset
        = (job_req.required_skills.map strLower).toFinset)
    ∧ ((calculate_match_score cv_data job_req).matched_preferred.toFinset
        ∩ (calculate_match_score cv_data job_req).missing_preferred.toFinset = ∅
      ∧ (calculate_match_score cv_data job_req).matched_preferred.toFinset
          ∪ (calculate_match_score cv_data job_req).missing_preferred.toFinset
        = (job_req.preferred_skills.map strLower).toFinset) := by
  have e1 : (calculate_match_score cv_data job_req).matched_required
      = (cv_skills_set cv_data.skills
          ∩ (job_req.required_skills.map strLower).toFinset).sort strLe := rfl
  have e2 : (calculate_match_score cv_data job_req).missing_required
      = ((job_req.required_skills.map strLower).toFinset
          \ cv_skills_set cv_data.skills).sort strLe := rfl
  have e3 : (calculate_match_score cv_data job_req).matched_preferred
      = (cv_skills_set cv_data.skills
          ∩ (job_req.preferred_skills.map strLower).toFinset).sort strLe := rfl
  have e4 : (calculate_match_score cv_data job_req).missing_preferred
      = ((job_req.preferred_skills.map strLower).toFinset
          \ cv_skills_set cv_data.skills).sort strLe := rfl
  rw [e1, e2, e3, e4, toFinset_sortFinset, toFinset_sortFinset, toFinset_sortFinset,
    toFinset_sortFinset]
  exact ⟨⟨inter_inter_sdiff_empty _ _, inter_union_sdiff_self _ _⟩,
    ⟨inter_inter_sdiff_empty _ _, inter_union_sdiff_self _ _⟩⟩

/-- Claim C5: with empty required and empty preferred skill lists, every
score is the convention value 100 (and overall is exactly 100.0). -/
theorem C5_empty_requirements (cv_data : CVData) (job_req : JobRequirements)
    (hr : job_req.required_skills = []) (hp : job_req.preferred_skills = []) :
    (calculate_match_score cv_data job_req).required_score = 100
    ∧ (calculate_match_score cv_data job_req).preferred_score = 100
    ∧ (calculate_match_score cv_data job_req).overall_score = 100 := by
  have e1 : (calculate_match_score cv_data job_req).required_score
      = round1 (if (job_req.required_skills.map strLower).toFinset = ∅ then 100
          else ((cv_skills_set cv_data.skills
              ∩ (job_req.required_skills.map strLower).toFinset).card : ℚ)
            / (((job_req.required_skills.map strLower).toFinset).card : ℚ) * 100) := rfl
  have e2 : (calculate_match_score cv_data job_req).preferred_score
      = round1 (if (job_req.preferred_skills.map strLower).toFinset = ∅ then 100
          else ((cv_skills_set cv_data.skills
              ∩ (job_req.preferred_skills.map strLower).toFinset).card : ℚ)
            / (((job_req.preferred_skills.map strLower).toFinset).card : ℚ) * 100) := rfl
  have e3 : (calculate_match_score cv_data job_req).overall_score
      = round1 ((if (job_req.required_skills.map strLower).toFinset = ∅ then 100
          else ((cv_skills_set cv_data.skills
              ∩ (job_req.required_skills.map strLower).toFinset).card : ℚ)
            / (((job_req.required_skills.map strLower).toFinset).card : ℚ) * 100)
          * (7 / 10)
        + (if (job_req.preferred_skills.map strLower).toFinset = ∅ then 100
          else ((cv_skills_set cv_data.skills
              ∩ (job_req.preferred_skills.map strLower).toFinset).card : ℚ)
            / (((job_req.preferred_skills.map strLower).toFinset).card : ℚ) * 100)
          * (3 / 10)) := rfl
  rw [e1, e2, e3, hr, hp]
  simp only [List.map_nil, List.toFinset_nil, eq_self_iff_true, if_true]
  refine ⟨round1_hundred, round1_hundred, ?_⟩
  have harith : (100 : ℚ) * (7 / 10) + 100 * (3 / 10) = 100 := by norm_num
  rw [harith, round1_hundred]

/-- Witness for C5 at a concrete empty job. -/
theorem C5_empty_requirements_witness :
    (calculate_match_score { personal_info := {} } {}).required_score = 100
    ∧ (calculate_match_score { personal_info := {} } {}).preferred_score = 100
    ∧ (calculate_match_score { personal_info := {} } {}).overall_score = 100 :=
  C5_empty_requirements { personal_info := {} } {} rfl rfl

lemma score_frac_mono {m m' d : ℕ} (hm : m ≤ m') :
    (m : ℚ) / (d : ℚ) * 100 ≤ (m' : ℚ) / (d : ℚ) * 100 := by
  rcases Nat.eq_zero_or_pos d with hd | hd
  · subst hd; simp
  · have hd' : (0 : ℚ) < (d : ℚ) := by exact_mod_cast hd
    have hm' : (m : ℚ) ≤ (m' : ℚ) := by exact_mod_cast hm
    gcongr

lemma match_score_branch_mono (cv1 cv2 req : Finset String) (hsub : cv1 ⊆ cv2) :
    (if req = ∅ then (100 : ℚ) else ((cv1 ∩ req).card : ℚ) / (req.card : ℚ) * 100)
      ≤ (if req = ∅ then (100 : ℚ)
          else ((cv2 ∩ req).card : ℚ) / (req.card : ℚ) * 100) := by
  by_cases h : req = ∅
  · rw [if_pos h, if_pos h]
  · rw [if_neg h, if_neg h]
    exact score_frac_mono
      (Finset.card_le_card (Finset.inter_subset_inter hsub (Finset.Subset.refl req)))

lemma cv_skills_set_cons (cat : String) (x : String)
    (skills : List (String × List String)) :
    cv_skills_set ((cat, [x]) :: skills) = insert (strLower x) (cv_skills_set skills) := by
  simp [cv_skills_set]

/-- Monotonicity of every score under enlarging the candidate skill set
by one skill. -/
lemma calculate_match_score_mono_of_insert (cv_data cv' : CVData)
    (job_req : JobRequirements) (x : String)
    (hset : cv_skills_set cv'.skills = insert x (cv_skills_set cv_data.skills)) :
    (calculate_match_score cv_data job_req).required_score
        ≤ (calculate_match_score cv' job_req).required_score
    ∧ (calculate_match_score cv_data job_req).preferred_score
        ≤ (calculate_match_score cv' job_req).preferred_score
    ∧ (calculate_match_score cv_data job_req).overall_score
        ≤ (calculate_match_score cv' job_req).overall_score := by
  have hsub : cv_skills_set cv_data.skills ⊆ cv_skills_set cv'.skills := by
    rw [hset]
    exact Finset.subset_insert _ _
  have hrs := match_score_branch_mono (cv_skills_set cv_data.skills)
    (cv_skills_set cv'.skills) ((job_req.required_skills.map strLower).toFinset) hsub
  have hps := match_score_branch_mono (cv_skills_set cv_data.skills)
    (cv_skills_set cv'.skills) ((job_req.preferred_skills.map strLower).toFinset) hsub
  refine ⟨round1_mono hrs, round1_mono hps, ?_⟩
  apply round1_mono
  have h7 : (0 : ℚ) ≤ 7 / 10 := by norm_num
  have h3 : (0 : ℚ) ≤ 3 / 10 := by norm_num
  exact add_le_add (mul_le_mul_of_nonneg_right hrs h7)
    (mul_le_mul_of_nonneg_right hps h3)

/-- Claim C6: adding a skill that belongs (case-insensitively) to the
job's required or preferred skills to the candidate's skill set — here,
as a new category of the skills dict — cannot decrease the required,
preferred or overall score. -/
theorem C6_score_monotone (cv_data : CVData) (job_req : JobRequirements) (s : String)
    (hs : strLower s ∈ job_req.required_skills.map strLower
        ∨ strLower s ∈ job_req.preferred_skills.map strLower) :
    (calculate_match_score cv_data job_req).required_score
        ≤ (calculate_match_score
            { cv_data with skills := ("tailored", [s]) :: cv_data.skills }
            job_req).required_score
    ∧ (calculate_match_score cv_data job_req).preferred_score
        ≤ (calculate_match_score
            { cv_data with skills := ("tailored", [s]) :: cv_data.skills }
            job_req).preferred_score
    ∧ (calculate_match_score cv_data job_req).overall_score
        ≤ (calculate_match_score
            { cv_data with skills := ("tailored", [s]) :: cv_data.skills }
            job_req).overall_score :=
  calculate_match_score_mono_of_insert cv_data
    { cv_data with skills := ("tailored", [s]) :: cv_data.skills } job_req
    (strLower s) (cv_skills_set_cons "tailored" s cv_data.skills)

/-- Witness for C6 at a concrete profile, job and matched skill. -/
theorem C6_score_monotone_witness :
    (calculate_match_score
        { personal_info := {}, skills := [("technical", ["python"])] }
        { required_skills := ["Python", "AWS"] }).required_score
      ≤ (calculate_match_score
          { personal_info := {}, skills :=
              ("tailored", ["AWS"]) :: [("technical", ["python"])] }
          { required_skills := ["Python", "AWS"] }).required_score :=
  (C6_score_monotone
    { personal_info := {}, skills := [("technical", ["python"])] }
    { required_skills := ["Python", "AWS"] } "AWS" (by decide)).1

/-! ### Parser claim C9 -/

/-- Claim C9 counterexample: when the text-extraction collaborator cannot
read the source, `parse_cv` does not surface any distinguishable
condition — it returns a perfectly ordinary profile that is equal to the
profile parsed from a successfully read empty document (the warning is
only printed); the skill list is empty, not fabricated. -/
theorem C9_unreadable_counterexample :
    parse_cv_pdf (fun _ => {}) none "cv.pdf"
        = parse_cv_pdf (fun _ => {}) (some []) "cv.pdf"
    ∧ (parse_cv_pdf (fun _ => {}) none "cv.pdf").skills = [("technical", [])]
    ∧ (parse_cv_pdf (fun _ => {}) none "cv.pdf").raw_text = "" := by
  refine ⟨?_, by decide, rfl⟩
  rfl

/-- Claim C9 as amended: an unreadable source degrades to an empty raw
text (no `UnreadableDocument` condition is surfaced — the result is
indistinguishable from parsing an empty readable document), and the
parser never fabricates skills: the profile's skill list is exactly the
sorted vocabulary extraction from the actually extracted text. -/
theorem C9_no_fabricated_skills (pinfo : String → PersonalInfo)
    (pages : Option (List String)) (file_path : String) :
    (parse_cv_pdf pinfo pages file_path).skills
        = [("technical", sortStr (extract_skills_from_text
            (extract_text_from_pdf pages)))]
    ∧ (pages = none →
        (parse_cv_pdf pinfo pages file_path).raw_text = ""
        ∧ parse_cv_pdf pinfo pages file_path
            = parse_cv_pdf pinfo (some []) file_path) := by
  refine ⟨rfl, ?_⟩
  rintro rfl
  exact ⟨rfl, rfl⟩

/-- Witness for C9 as amended on a concrete unreadable source. -/
theorem C9_no_fabricated_skills_witness :
    (parse_cv_pdf (fun _ => {}) none "cv.pdf").skills
        = [("technical", sortStr (extract_skills_from_text
            (extract_text_from_pdf none)))]
    ∧ (parse_cv_pdf (fun _ => {}) none "cv.pdf").raw_text = ""
    ∧ parse_cv_pdf (fun _ => {}) none "cv.pdf"
        = parse_cv_pdf (fun _ => {}) (some []) "cv.pdf" := by
  have h := C9_no_fabricated_skills (fun _ => {}) none "cv.pdf"
  exact ⟨h.1, (h.2 rfl).1, (h.2 rfl).2⟩

end CVTailor
